import Mathlib

/-!
Shallow embedding of the sbv2_core repository (`src/`): the jtalk
prosody/alignment helpers (`src/jtalk.rs`), the style-vector access
(`src/style.rs`), the word2ph feature broadcast (`src/tts_util.rs`) and the
bounded model cache (`src/tts.rs`).

Conventions used throughout:
* Rust panics (failed `assert!`, out-of-bounds indexing, `unwrap` of `None`,
  `usize` underflow) are modelled by `Option`, with `none` standing for the
  panic; typed `Result` errors are modelled by `Except Sbv2CoreError`.
* Opaque external payloads (onnx weight blobs, parsed style matrices,
  instantiated inference sessions) are modelled as abstract numeric tokens;
  the fallible external constructors (`load_model_session`, `load_style`)
  are taken as oracle functions `Nat → Except Sbv2CoreError Nat`.
* `f32` sample/feature values are modelled as `Int`: the claims under study
  concern shapes, zero blocks and indexing, never float rounding.
-/

namespace Sbv2

/-- Error enum from `src/errors.rs`. The `#[from]` wrappers around external
library errors (io/ort/tokenizers/serde/ndarray/jpreprocess/hound) are
collapsed into one `ExternalError` constructor; the two variants the claims
inspect (`ModelNotFoundError`, `ValueError`) are kept verbatim. -/
inductive Sbv2CoreError where
  | ModelNotFoundError (content : String)
  | ValueError (msg : String)
  | ExternalError (msg : String)
deriving DecidableEq

/-- `VOWELS` from `src/mora.rs`: `["a", "i", "u", "e", "o", "N"]`. -/
def VOWELS : List String := ["a", "i", "u", "e", "o", "N"]

/-- Modelled from the spec: the punctuation set `PUNCTUATIONS` lives in
`norm.rs`, which is not part of the provided sources (only its users are).
The spec describes it as the set of punctuation characters preserved by
normalization (§4.2 shows "、"-style marks; the alignment and tokenizing
code treats each punctuation mark as a one-character unit). None of the
proved claims depends on the exact membership of this set. -/
def PUNCTUATIONS : List String := ["!", "?", "…", ",", ".", "-"]

/-- Set-equality test between two lists viewed as finite sets; this is how
`HashSet` equality (`tone_values == hash_set![..]`) behaves in
`fix_phone_tone` (`src/jtalk.rs`). -/
def sameSet (a b : List Int) : Bool :=
  a.all (fun x => b.contains x) && b.all (fun x => a.contains x)

/-- `JTalkProcess::fix_phone_tone` (`src/jtalk.rs` lines 85-121).
The `HashSet<i32>` of the tones is modelled by `List.dedup` (its length is
the number of distinct tones, and `==` on hash sets is set equality).
`none` models the `assert!(tone_values == hash_set![0])` panic in the
one-distinct-value arm. -/
def fix_phone_tone (phone_tone_list : List (String × Int)) :
    Option (Except Sbv2CoreError (List (String × Int))) :=
  let tone_values : List Int := (phone_tone_list.map Prod.snd).dedup
  if tone_values.length = 1 then
    if sameSet tone_values [0] then
      some (Except.ok phone_tone_list)
    else
      none
  else if tone_values.length = 2 then
    if sameSet tone_values [0, 1] then
      some (Except.ok phone_tone_list)
    else if sameSet tone_values [-1, 0] then
      some (Except.ok (phone_tone_list.map fun x =>
        (x.1, if x.2 = -1 then (0 : Int) else 1)))
    else
      some (Except.error (Sbv2CoreError.ValueError "Invalid tone values 0"))
  else some (Except.error (Sbv2CoreError.ValueError "Invalid tone values 1"))

/-- One iteration of the loop body in `JTalkProcess::distribute_phone`
(`src/jtalk.rs` lines 179-187): find the minimum load, find the first index
carrying it, and increment that slot. `none` models the
`phones_per_word.iter().min().unwrap()` panic on an empty vector. -/
def min_step (phones_per_word : List Int) : Option (List Int) :=
  match phones_per_word.min? with
  | none => none
  | some m => some (phones_per_word.set (phones_per_word.indexOf m) (m + 1))

/-- The `for _ in 0..n_phone` loop of `distribute_phone`, peeled one
iteration at a time. -/
def distribute_phone_go : Nat → List Int → Option (List Int)
  | 0, acc => some acc
  | k + 1, acc =>
      match min_step acc with
      | none => none
      | some acc1 => distribute_phone_go k acc1

/-- `JTalkProcess::distribute_phone` (`src/jtalk.rs` lines 176-189).
Inputs are `i32` in the source; a negative `n_phone` gives an empty Rust
range (zero iterations), which `Int.toNat` reproduces. Call sites only ever
pass list lengths (nonnegative); a negative `n_word` would make the source
attempt a near-`usize::MAX` allocation, a case the claims never touch. -/
def distribute_phone (n_phone n_word : Int) : Option (List Int) :=
  distribute_phone_go n_phone.toNat (List.replicate n_word.toNat 0)

/-- The walk inside `JTalkProcess::align_tones` (`src/jtalk.rs` lines
191-221), with the `tone_index` cursor into `phone_tone_list` represented
by the not-yet-consumed suffix. -/
def align_tones_go :
    List String → List (String × Int) →
    Except Sbv2CoreError (List (String × Int))
  | [], _ => Except.ok []
  | phone :: rest, [] =>
      (align_tones_go rest []).map (fun r => (phone, (0 : Int)) :: r)
  | phone :: rest, (p, t) :: remaining =>
      if phone = p then
        (align_tones_go rest remaining).map (fun r => (phone, t) :: r)
      else if PUNCTUATIONS.contains phone then
        (align_tones_go rest ((p, t) :: remaining)).map
          (fun r => (phone, (0 : Int)) :: r)
      else
        Except.error (Sbv2CoreError.ValueError ("Mismatched phoneme: " ++ phone))

/-- `JTalkProcess::align_tones` (`src/jtalk.rs` lines 191-221). The
`println!` debugging on the error path is side-effect-only and dropped. -/
def align_tones (phone_with_punct : List String)
    (phone_tone_list : List (String × Int)) :
    Except Sbv2CoreError (List (String × Int)) :=
  align_tones_go phone_with_punct phone_tone_list

/-- The inner `for e in 0..len` mark-replacement loop of
`JTalkProcess::handle_long` (`src/jtalk.rs` lines 245-252), for positions
`e ≥ 1`: `prev` is the current value at position `e - 1` (after any update
made by this very loop). A long-vowel mark is replaced by the last
character of `prev`; `none` models the `chars().last().unwrap()` panic when
`prev` is the empty string. -/
def handle_long_marks_go (prev : String) : List String → Option (List String)
  | [] => some []
  | x :: rest =>
      if x = "ー" then
        match prev.toList.getLast? with
        | none => none
        | some c =>
            let r := String.mk [c]
            (handle_long_marks_go r rest).map (fun out => r :: out)
      else
        (handle_long_marks_go x rest).map (fun out => x :: out)

/-- The inner mark-replacement loop of `handle_long` including its `e = 0`
iteration: when the segment still starts with the long-vowel mark, the
source indexes `sep_phonemes[i][e - 1]` with `e = 0`, a `usize` underflow
followed by an out-of-bounds access — a panic, modelled by `none`. -/
def handle_long_marks : List String → Option (List String)
  | [] => some []
  | x :: rest =>
      if x = "ー" then none
      else (handle_long_marks_go x rest).map (fun out => x :: out)

/-- The body of `handle_long`'s outer loop for one segment: the
first-phoneme fix-up (`src/jtalk.rs` lines 229-243) followed, when a mark
remains anywhere in the segment, by the mark-replacement loop (lines
245-252). `acc` holds the already-processed earlier segments in reverse
(the source mutates in place, so segment `i - 1` is read after its own
processing). -/
def handle_long_seg (acc : List (List String)) (seg : List String) :
    Option (List String) :=
  match seg with
  | [] => some []
  | first :: rest =>
      let seg1 : Option (List String) :=
        if first = "ー" then
          match acc with
          | [] => some ("ー" :: rest)
          | prev_seg :: _ =>
              match prev_seg.getLast? with
              | none => none
              | some prev_phoneme =>
                  if VOWELS.contains prev_phoneme then
                    some (prev_phoneme :: rest)
                  else
                    some ("ー" :: rest)
        else
          some (first :: rest)
      match seg1 with
      | none => none
      | some s =>
          if s.contains "ー" then handle_long_marks s else some s

/-- The outer `for i in 0..sep_phonemes.len()` loop of `handle_long`. -/
def handle_long_go (acc : List (List String)) :
    List (List String) → Option (List (List String))
  | [] => some acc.reverse
  | seg :: rest =>
      if seg.isEmpty then
        handle_long_go (seg :: acc) rest
      else
        match handle_long_seg acc seg with
        | none => none
        | some seg2 => handle_long_go (seg2 :: acc) rest

/-- `JTalkProcess::handle_long` (`src/jtalk.rs` lines 223-256). `none`
models the panics (index underflow at `e = 0`, `unwrap` of an empty
previous segment or empty-string phoneme). -/
def handle_long (sep_phonemes : List (List String)) :
    Option (List (List String)) :=
  handle_long_go [] sep_phonemes

/-- `get_style_vector` (`src/style.rs` lines 24-34). The style matrix is a
row list; `slice(s![0, ..])` and `slice(s![style_id as usize, ..])` panic
(`none`) when the row index is out of range — for a negative `style_id`,
`as usize` wraps to an astronomically large index, which is likewise out of
range for any real matrix. The elementwise arithmetic
`mean + (style_vector - mean) * weight` is kept; entries are modelled as
`Int` (the claim only concerns the presence/absence of a bounds check). -/
def get_style_vector (style_vectors : List (List Int)) (style_id : Int)
    (weight : Int) : Option (List Int) :=
  match style_vectors[0]? with
  | none => none
  | some mean =>
      if style_id < 0 then none
      else
        match style_vectors[style_id.toNat]? with
        | none => none
        | some style_vector =>
            let diff := List.zipWith (fun s m => (s - m) * weight) style_vector mean
            some (List.zipWith (fun m d => m + d) mean diff)

/-- The word2ph adjustment inside `parse_text_blocking`
(`src/tts_util.rs` lines 27-30): `for item in &mut word2ph { *item *= 2; }`
followed by `word2ph[0] += 1;`. `none` models the `word2ph[0]` panic on an
empty list (unreachable from `g2p`, whose output always carries the two
boundary units). -/
def word2ph_adjust (word2ph : List Int) : Option (List Int) :=
  match word2ph.map (fun x => x * 2) with
  | [] => none
  | h :: t => some ((h + 1) :: t)

/-- The `repeat_feature` block of `parse_text_blocking`
(`src/tts_util.rs` lines 48-62): replicate row `i` of `bert_content`
`reps` times (`reps_cols` is the constant 1, so the row is copied once per
repeated row). `none` models the `bert_content.slice(s![i, ..])` panic when
`i` is not a row of the matrix. -/
def repeat_feature (bert_content : List (List Int)) (i : Nat) (reps : Int) :
    Option (List (List Int)) :=
  match bert_content[i]? with
  | none => none
  | some row => some (List.replicate reps.toNat row)

/-- The `for (i, reps) in word2ph.iter().enumerate()` accumulation loop of
`parse_text_blocking` (`src/tts_util.rs` lines 46-63) followed by the
row-wise concatenation (lines 65-71): the per-row replicated blocks joined
in order. -/
def phone_level_feature_go (bert_content : List (List Int)) (i : Nat) :
    List Int → Option (List (List Int))
  | [] => some []
  | reps :: rest =>
      match repeat_feature bert_content i reps with
      | none => none
      | some block =>
          match phone_level_feature_go bert_content (i + 1) rest with
          | none => none
          | some tail => some (block ++ tail)

/-- `phone_level_feature` of `parse_text_blocking` (`src/tts_util.rs`
lines 46-71): the concatenated per-phoneme feature matrix, one block of
`word2ph[i]` copies of `bert` row `i` per entry, before the final
transpose `phone_level_feature.t()`. -/
def phone_level_feature (bert_content : List (List Int))
    (word2ph : List Int) : Option (List (List Int)) :=
  phone_level_feature_go bert_content 0 word2ph

/-- Rust's `text.split('\n')` (`src/tts.rs` line 408), modelled over the
character list: every separator occurrence splits, empty pieces are kept,
and the empty string yields one empty piece. -/
def split_char (c : Char) : List Char → List (List Char)
  | [] => [[]]
  | x :: rest =>
      if x = c then
        [] :: split_char c rest
      else
        match split_char c rest with
        | [] => [[x]]
        | s :: ss => (x :: s) :: ss

/-- The fixed silence block pushed between sentence segments
(`src/tts.rs` line 434): `Array3::zeros((1, 1, 22050))`, i.e. 22050 zero
samples on the sample axis. -/
def silence_block : List Int := List.replicate 22050 0

/-- `sample_rate` of the produced WAV stream, from the `WavSpec` in
`array_to_vec` (`src/tts_util.rs` line 87). -/
def wav_sample_rate : Nat := 44100

/-- The `split_sentences` loop of `TtsModelHolder::synthesize`
(`src/tts.rs` lines 408-436), producing the list of waveform segments that
are then concatenated along `Axis(2)` (the sample axis): empty lines are
skipped; after each synthesized line that is not the last line of the
split, the silence block is pushed. The whole per-line pipeline
(`parse_text` + `crate::model::synthesize`) is abstracted as the `vocoder`
oracle, one waveform per line of text. -/
def synthesize_audios_go (vocoder : String → List Int) (n : Nat) :
    Nat → List String → List (List Int)
  | _, [] => []
  | i, t :: rest =>
      if t = "" then
        synthesize_audios_go vocoder n (i + 1) rest
      else
        vocoder t ::
          (if i ≠ n - 1 then
            silence_block :: synthesize_audios_go vocoder n (i + 1) rest
          else
            synthesize_audios_go vocoder n (i + 1) rest)

/-- The segment list built by `synthesize` for `split_sentences = true`
(`src/tts.rs` lines 406-442): split the input on newlines, then run the
push loop above. -/
def synthesize_split_segments (vocoder : String → List Int) (text : String) :
    List (List Int) :=
  let texts : List String := (split_char '\n' text.toList).map (fun l => String.mk l)
  synthesize_audios_go vocoder texts.length 0 texts

/-- The concatenation `ndarray::concatenate(Axis(2), ..)` of the segment
list (`src/tts.rs` lines 438-441): joining along the sample axis.
`ndarray` refuses to concatenate an empty list of arrays (`none`). -/
def synthesize_split_audio (vocoder : String → List Int) (text : String) :
    Option (List Int) :=
  match synthesize_split_segments vocoder text with
  | [] => none
  | segs => some segs.flatten

/-- `UpperLimitTtsModel` (`src/tts.rs` lines 20-27): one cache entry in
bounded mode. The instantiated `ort::Session` and the raw weight bytes and
parsed style matrix are abstract tokens (`Nat`). -/
structure UpperLimitTtsModel where
  model_ident : String
  vits2 : Option Nat
  bytes : Nat
  style_vectors : Nat
deriving DecidableEq

/-- `NoUpperLimitTtsModel` (`src/tts.rs` lines 12-18): one cache entry in
unbounded mode (always holds a session, keeps no weight bytes). -/
structure NoUpperLimitTtsModel where
  model_ident : String
  vits2 : Nat
  style_vectors : Nat
deriving DecidableEq

/-- `EitherTtsModelVec` (`src/tts.rs` lines 35-39). -/
inductive EitherTtsModelVec where
  | Limit : List UpperLimitTtsModel → EitherTtsModelVec
  | NoLimit : List NoUpperLimitTtsModel → EitherTtsModelVec
deriving DecidableEq

/-- `TtsModelHolder` (`src/tts.rs` lines 41-48), restricted to the cache
state the claims are about (the shared `bert` session, tokenizer and jtalk
handles are read-only collaborators). -/
structure TtsModelHolder where
  models : EitherTtsModelVec
  max_loaded_models : Option Nat
deriving DecidableEq

/-- `TtsModelHolder::new` (`src/tts.rs` lines 51-74): the cache starts
empty, `Limit` for `Some(cap)` and `NoLimit` for `None`. -/
def TtsModelHolder.new (max_loaded_models : Option Nat) : TtsModelHolder :=
  { models :=
      match max_loaded_models with
      | some _ => EitherTtsModelVec.Limit []
      | none => EitherTtsModelVec.NoLimit []
    max_loaded_models := max_loaded_models }

/-- `TtsModelHolder::get_loadedmodel_count` (`src/tts.rs` lines 93-107):
in bounded mode, the number of entries whose session is present; in
unbounded mode, the entry count. -/
def TtsModelHolder.get_loadedmodel_count (h : TtsModelHolder) : Nat :=
  match h.models with
  | EitherTtsModelVec.Limit v => (v.filter (fun m => m.vits2.isSome)).length
  | EitherTtsModelVec.NoLimit v => v.length

/-- `TtsModelHolder::is_max_models_loaded` (`src/tts.rs` lines 109-127). -/
def TtsModelHolder.is_max_models_loaded (h : TtsModelHolder) : Bool :=
  match h.models with
  | EitherTtsModelVec.NoLimit _ => false
  | EitherTtsModelVec.Limit v =>
      match h.max_loaded_models with
      | none => false
      | some upper_limit =>
          decide ((v.filter (fun m => m.vits2.isSome)).length ≥ upper_limit)

/-- The existence part of `TtsModelHolder::get_either_model`
(`src/tts.rs` lines 340-357): is an entry with this ident registered? -/
def TtsModelHolder.has_model (h : TtsModelHolder) (model_ident : String) : Bool :=
  match h.models with
  | EitherTtsModelVec.Limit v => v.any (fun m => m.model_ident = model_ident)
  | EitherTtsModelVec.NoLimit v => v.any (fun m => m.model_ident = model_ident)

/-- `TtsModelHolder::load` (`src/tts.rs` lines 129-177). `loadStyle`
models `crate::style::load_style` and `lms` models
`crate::model::load_model_session`; both return the parsed artifact or a
typed error. The returned pair is (state after the call, result). -/
def TtsModelHolder.load (loadStyle lms : Nat → Except Sbv2CoreError Nat)
    (h : TtsModelHolder) (model_ident : String)
    (style_vectors_bytes vits2_bytes : Nat) :
    TtsModelHolder × Except Sbv2CoreError Unit :=
  if h.has_model model_ident then
    (h, Except.ok ())
  else
    let max_loaded := h.is_max_models_loaded
    match h.models with
    | EitherTtsModelVec.Limit v =>
        match loadStyle style_vectors_bytes with
        | Except.error e => (h, Except.error e)
        | Except.ok style_vectors =>
            match (if max_loaded then Except.ok none else (lms vits2_bytes).map some) with
            | Except.error e => (h, Except.error e)
            | Except.ok session =>
                ({ h with models := EitherTtsModelVec.Limit (v ++
                    [{ model_ident := model_ident, vits2 := session,
                       bytes := vits2_bytes, style_vectors := style_vectors }]) },
                 Except.ok ())
    | EitherTtsModelVec.NoLimit v =>
        match loadStyle style_vectors_bytes with
        | Except.error e => (h, Except.error e)
        | Except.ok style_vectors =>
            match lms vits2_bytes with
            | Except.error e => (h, Except.error e)
            | Except.ok session =>
                ({ h with models := EitherTtsModelVec.NoLimit (v ++
                    [{ model_ident := model_ident, vits2 := session,
                       style_vectors := style_vectors }]) },
                 Except.ok ())

/-- `TtsModelHolder::unload` (`src/tts.rs` lines 179-207): remove the
first entry with this ident (`Vec::remove` keeps the order of the rest);
report whether anything was removed. -/
def TtsModelHolder.unload (h : TtsModelHolder) (model_ident : String) :
    TtsModelHolder × Bool :=
  match h.models with
  | EitherTtsModelVec.Limit v =>
      if v.any (fun m => m.model_ident = model_ident) then
        ({ h with models :=
            EitherTtsModelVec.Limit (v.eraseP (fun m => m.model_ident = model_ident)) },
         true)
      else (h, false)
  | EitherTtsModelVec.NoLimit v =>
      if v.any (fun m => m.model_ident = model_ident) then
        ({ h with models :=
            EitherTtsModelVec.NoLimit (v.eraseP (fun m => m.model_ident = model_ident)) },
         true)
      else (h, false)

/-- The in-place session clearing of `TtsModelHolder::session_unload`
(`src/tts.rs` lines 265-278): set `vits2 = None` on the first entry with
the given ident, touching nothing else. -/
def session_unload_list (model_ident : String) :
    List UpperLimitTtsModel → List UpperLimitTtsModel
  | [] => []
  | m :: rest =>
      if m.model_ident = model_ident then
        { m with vits2 := none } :: rest
      else
        m :: session_unload_list model_ident rest

/-- `TtsModelHolder::session_unload` (`src/tts.rs` lines 265-278): a no-op
in unbounded mode or when the ident is absent. -/
def TtsModelHolder.session_unload (h : TtsModelHolder) (model_ident : String) :
    TtsModelHolder :=
  match h.models with
  | EitherTtsModelVec.NoLimit _ => h
  | EitherTtsModelVec.Limit v =>
      { h with models := EitherTtsModelVec.Limit (session_unload_list model_ident v) }

/-- The `find` + `Vec::remove(idx)` step of `model_session_preparation`
(`src/tts.rs` lines 288-298): locate the first entry with this ident and
split the list into that entry and the remainder (order preserved). -/
def extract_first (model_ident : String) :
    List UpperLimitTtsModel →
    Option (UpperLimitTtsModel × List UpperLimitTtsModel)
  | [] => none
  | m :: rest =>
      if m.model_ident = model_ident then some (m, rest)
      else (extract_first model_ident rest).map (fun p => (p.1, m :: p.2))

/-- `TtsModelHolder::model_session_preparation` (`src/tts.rs` lines
281-338). In bounded mode, a cold entry is first removed from the vector;
if the remaining live-session count is at least `cap - 1`, the session of
the first currently-hot entry is cleared (`session_unload`); then a new
session is instantiated from the removed entry's resident bytes and the
entry is pushed back hot. Note that on an instantiation error the `?`
returns with the entry still removed. (`cap - 1` is `usize` subtraction in
the source and truncated `Nat` subtraction here; the two agree for every
`cap ≥ 1`, the only regime the claims quantify over.) -/
def TtsModelHolder.model_session_preparation
    (lms : Nat → Except Sbv2CoreError Nat) (h : TtsModelHolder)
    (model_ident : String) : TtsModelHolder × Except Sbv2CoreError Unit :=
  match h.models with
  | EitherTtsModelVec.NoLimit _ => (h, Except.ok ())
  | EitherTtsModelVec.Limit v =>
      match extract_first model_ident v with
      | none => (h, Except.error (Sbv2CoreError.ModelNotFoundError model_ident))
      | some (model, v1) =>
          if model.vits2.isSome then
            (h, Except.ok ())
          else
            let s1 : TtsModelHolder :=
              { h with models := EitherTtsModelVec.Limit v1 }
            let s2 : TtsModelHolder :=
              match h.max_loaded_models with
              | none => s1
              | some max_loaded_models =>
                  let loaded_model_count := s1.get_loadedmodel_count
                  let remove_model_ident :=
                    match v1.find? (fun m => m.vits2.isSome) with
                    | some remove_model => remove_model.model_ident
                    | none => ""
                  if loaded_model_count ≥ max_loaded_models - 1 then
                    s1.session_unload remove_model_ident
                  else
                    s1
            match lms model.bytes with
            | Except.error e => (s2, Except.error e)
            | Except.ok sbv2_session =>
                match s2.models with
                | EitherTtsModelVec.NoLimit _ => (s2, Except.ok ())
                | EitherTtsModelVec.Limit v2 =>
                    ({ s2 with models := EitherTtsModelVec.Limit (v2 ++
                        [{ model_ident := model_ident,
                           vits2 := some sbv2_session,
                           bytes := model.bytes,
                           style_vectors := model.style_vectors }]) },
                     Except.ok ())

/-- One cache-mutating operation of the public interface. `synthesize`
(`src/tts.rs` lines 373-463) mutates the cache exactly through its initial
`model_session_preparation` call, so it is listed as its own constructor
with that transition. -/
inductive CacheOp where
  | load (model_ident : String) (style_vectors_bytes vits2_bytes : Nat)
  | unload (model_ident : String)
  | prep (model_ident : String)
  | synthesize (model_ident : String)
deriving DecidableEq

/-- Apply one operation, keeping only the state. -/
def runOp (loadStyle lms : Nat → Except Sbv2CoreError Nat)
    (h : TtsModelHolder) : CacheOp → TtsModelHolder
  | CacheOp.load ident sb vb => (h.load loadStyle lms ident sb vb).1
  | CacheOp.unload ident => (h.unload ident).1
  | CacheOp.prep ident => (h.model_session_preparation lms ident).1
  | CacheOp.synthesize ident => (h.model_session_preparation lms ident).1

/-- Apply a sequence of operations from left to right. -/
def runOps (loadStyle lms : Nat → Except Sbv2CoreError Nat)
    (ops : List CacheOp) (h : TtsModelHolder) : TtsModelHolder :=
  ops.foldl (runOp loadStyle lms) h

/-- The registration data (ident, weight bytes, style vectors) of every
bounded-mode entry, in order, session field erased. -/
def limit_registrations (h : TtsModelHolder) : List (String × Nat × Nat) :=
  match h.models with
  | EitherTtsModelVec.Limit v =>
      v.map (fun m => (m.model_ident, m.bytes, m.style_vectors))
  | EitherTtsModelVec.NoLimit _ => []

/-- The scan over the decompressed tar entries in `load_from_sbv2file`
(`src/tts.rs` lines 226-236): entries named `model.onnx` fill the vits2
slot, entries named `style_vectors.json` fill the style slot, later
occurrences overwrite earlier ones, anything else is skipped. The archive
is modelled after decompression as the list of (member name, bytes). -/
def scan_sbv2_entries_go (acc : Option Nat × Option Nat) :
    List (String × Nat) → Option Nat × Option Nat
  | [] => acc
  | (file_name, file_bytes) :: rest =>
      if file_name = "model.onnx" then
        scan_sbv2_entries_go (some file_bytes, acc.2) rest
      else if file_name = "style_vectors.json" then
        scan_sbv2_entries_go (acc.1, some file_bytes) rest
      else
        scan_sbv2_entries_go acc rest

/-- The member extraction of `load_from_sbv2file` (`src/tts.rs` lines
218-248), including the four-way match producing the model-not-found
errors. -/
def extract_sbv2 (entries : List (String × Nat)) :
    Except Sbv2CoreError (Nat × Nat) :=
  match scan_sbv2_entries_go (none, none) entries with
  | (some vits2, some style_vectors) => Except.ok (vits2, style_vectors)
  | (none, some _) =>
      Except.error (Sbv2CoreError.ModelNotFoundError "vits2 not found")
  | (some _, none) =>
      Except.error (Sbv2CoreError.ModelNotFoundError "style_vectors not found")
  | (none, none) =>
      Except.error (Sbv2CoreError.ModelNotFoundError "vits2, style_vectors not found")

/-- `TtsModelHolder::load_from_sbv2file` (`src/tts.rs` lines 209-251):
extract the two members, then delegate to `load`. -/
def TtsModelHolder.load_from_sbv2file
    (loadStyle lms : Nat → Except Sbv2CoreError Nat) (h : TtsModelHolder)
    (model_ident : String) (entries : List (String × Nat)) :
    TtsModelHolder × Except Sbv2CoreError Unit :=
  match extract_sbv2 entries with
  | Except.error e => (h, Except.error e)
  | Except.ok (vits2_bytes, style_vectors_bytes) =>
      h.load loadStyle lms model_ident style_vectors_bytes vits2_bytes

/-- The number of bounded-mode entries holding an instantiated session
(what `get_loadedmodel_count` counts in `Limit` mode). -/
def hotCount (v : List UpperLimitTtsModel) : Nat :=
  (v.filter (fun m => m.vits2.isSome)).length

/-- The idents of the entries, in order. -/
def identsOf (v : List UpperLimitTtsModel) : List String :=
  v.map (fun m => m.model_ident)

/-- The cache invariant for bounded mode: the holder is in `Limit` form
with this cap, at most `cap` entries are hot, and idents are unique. -/
def CacheInv (cap : Nat) (h : TtsModelHolder) : Prop :=
  h.max_loaded_models = some cap ∧
  ∃ v, h.models = EitherTtsModelVec.Limit v ∧
    hotCount v ≤ cap ∧ (identsOf v).Nodup

/-- The always-succeeding artifact oracle used by the concrete witnesses:
parsing/instantiation returns the blob token itself. -/
def oracle_ok : Nat → Except Sbv2CoreError Nat := fun b => Except.ok b

/-- A concrete operation sequence for the C6 witness: three registrations
against cap 2, then re-activations. -/
def demo_ops : List CacheOp :=
  [CacheOp.load "a" 0 10, CacheOp.load "b" 1 11, CacheOp.load "c" 2 12,
   CacheOp.prep "c", CacheOp.synthesize "a"]

/-- An artifact oracle whose session instantiation always fails. -/
def demo_fail_session : Nat → Except Sbv2CoreError Nat :=
  fun _ => Except.error (Sbv2CoreError.ExternalError "onnx parse failure")

/-- A bounded holder (cap 1) with one registered entry "m" whose session
has been evicted (weights and style vectors still resident). -/
def demo_cold_holder : TtsModelHolder :=
  { models := EitherTtsModelVec.Limit
      [{ model_ident := "m", vits2 := none, bytes := 7, style_vectors := 3 }],
    max_loaded_models := some 1 }

/-! ## Claim C10: `get_style_vector` has no bounds or sign check -/

/-- Claim C10: `get_style_vector` performs no bounds or sign check on
`style_id`; it produces a value exactly under the precondition
`0 ≤ style_id < rows`, and for `style_id ≥ rows` or negative `style_id`
the unguarded row slice panics (`none`); the `Option` result of the model
has no error branch, matching the absence of any typed-error return in the
source. -/
theorem get_style_vector_unchecked_bounds :
    ∀ (style_vectors : List (List Int)) (style_id : Int) (weight : Int),
      (get_style_vector style_vectors style_id weight).isSome ↔
        (0 ≤ style_id ∧ style_id.toNat < style_vectors.length) := by
  intro sv style_id weight
  cases sv with
  | nil => simp [get_style_vector]
  | cons mean rest =>
      by_cases hneg : style_id < 0
      · simp [get_style_vector, hneg]
      · simp only [get_style_vector, List.getElem?_cons_zero, hneg, if_false]
        cases hrow : (mean :: rest)[style_id.toNat]? with
        | none =>
            have hle := List.getElem?_eq_none_iff.mp hrow
            simp only [Option.isSome_none, Bool.false_eq_true, false_iff, not_and]
            intro _
            omega
        | some row =>
            have hlt : style_id.toNat < (mean :: rest).length := by
              by_contra hge
              rw [List.getElem?_eq_none_iff.mpr (by omega)] at hrow
              exact Option.noConfusion hrow
            simp only [Option.isSome_some, true_iff]
            exact ⟨by omega, hlt⟩

/-! ## Claim C4: a leading long-vowel mark that cannot be resolved -/

/-- Claim C4 (code bug): when a segment's first phoneme is the long-vowel
mark "ー" and there is no previous segment (first conjunct) or the previous
segment's last phoneme is not a vowel (second conjunct), `handle_long` does
NOT return normally with the mark preserved: the first-phoneme fix-up
writes the literal mark back, after which the mark-replacement loop hits it
at position `e = 0` and evaluates `sep_phonemes[i][e - 1]` — a `usize`
underflow / out-of-bounds panic, modelled by `none`. -/
theorem handle_long_leading_mark_panics :
    handle_long [["ー"]] = none ∧ handle_long [["k"], ["ー"]] = none := by
  exact ⟨rfl, rfl⟩

/-! ## Claim C8: `align_tones` is idempotent-safe -/

/-- In a successful alignment, the output's phoneme components are exactly
the input phoneme sequence, in order. -/
theorem align_tones_go_fst (ps : List String) :
    ∀ (ptl r : List (String × Int)), align_tones_go ps ptl = Except.ok r →
      r.map Prod.fst = ps := by
  induction ps with
  | nil =>
      intro ptl r h
      simp only [align_tones_go] at h
      cases h
      rfl
  | cons phone rest ih =>
      intro ptl r h
      cases ptl with
      | nil =>
          simp only [align_tones_go, Except.map] at h
          cases hrec : align_tones_go rest [] with
          | error e => rw [hrec] at h; cases h
          | ok r1 =>
              rw [hrec] at h
              cases h
              simp [ih [] r1 hrec]
      | cons pt remaining =>
          obtain ⟨p, t⟩ := pt
          simp only [align_tones_go] at h
          by_cases hp : phone = p
          · rw [if_pos hp] at h
            cases hrec : align_tones_go rest remaining with
            | error e => rw [hrec, Except.map] at h; cases h
            | ok r1 =>
                rw [hrec, Except.map] at h
                cases h
                simp [ih remaining r1 hrec]
          · rw [if_neg hp] at h
            by_cases hpunct : PUNCTUATIONS.contains phone
            · rw [if_pos hpunct] at h
              cases hrec : align_tones_go rest ((p, t) :: remaining) with
              | error e => rw [hrec, Except.map] at h; cases h
              | ok r1 =>
                  rw [hrec, Except.map] at h
                  cases h
                  simp [ih ((p, t) :: remaining) r1 hrec]
            · rw [if_neg hpunct] at h
              cases h

/-- Aligning a phoneme list against a tone list whose phoneme components
are that very list succeeds and returns the tone list unchanged: every
position matches in lock-step. -/
theorem align_tones_go_refl :
    ∀ (r : List (String × Int)), align_tones_go (r.map Prod.fst) r = Except.ok r := by
  intro r
  induction r with
  | nil => rfl
  | cons pt rest ih =>
      obtain ⟨p, t⟩ := pt
      simp [align_tones_go, ih, Except.map]

/-- Claim C8: `align_tones` is idempotent-safe — whenever
`align_tones phones phone_tone_list` succeeds with result `r`, running
`align_tones phones r` succeeds and returns exactly `r`. -/
theorem align_tones_idempotent
    (phones : List String) (phone_tone_list r : List (String × Int))
    (h : align_tones phones phone_tone_list = Except.ok r) :
    align_tones phones r = Except.ok r := by
  have hfst := align_tones_go_fst phones phone_tone_list r h
  unfold align_tones
  rw [← hfst]
  exact align_tones_go_refl r

/-- Witness for C8 at a concrete input. -/
theorem align_tones_idempotent_witness :
    align_tones ["a", "b"] [("a", 1), ("b", 0)] = Except.ok [("a", 1), ("b", 0)] :=
  align_tones_idempotent ["a", "b"] [("a", 1), ("b", 0)] [("a", 1), ("b", 0)] rfl

/-! ## Claim C9: missing archive members -/

/-- If no entry is named `style_vectors.json`, the style slot of the scan
is untouched. -/
theorem scan_go_style_slot :
    ∀ (entries : List (String × Nat)) (acc : Option Nat × Option Nat),
      (∀ e ∈ entries, e.1 ≠ "style_vectors.json") →
      (scan_sbv2_entries_go acc entries).2 = acc.2 := by
  intro entries
  induction entries with
  | nil => intro acc _; rfl
  | cons e rest ih =>
      intro acc hnone
      obtain ⟨n, b⟩ := e
      have hn : n ≠ "style_vectors.json" := hnone (n, b) (by simp)
      have hrest : ∀ x ∈ rest, x.1 ≠ "style_vectors.json" := by
        intro x hx
        exact hnone x (by simp [hx])
      by_cases hm : n = "model.onnx"
      · simp only [scan_sbv2_entries_go, hm, if_pos rfl]
        exact ih _ hrest
      · simp only [scan_sbv2_entries_go, if_neg hm, if_neg hn]
        exact ih _ hrest

/-- If no entry is named `model.onnx`, the vits2 slot of the scan is
untouched. -/
theorem scan_go_vits2_slot :
    ∀ (entries : List (String × Nat)) (acc : Option Nat × Option Nat),
      (∀ e ∈ entries, e.1 ≠ "model.onnx") →
      (scan_sbv2_entries_go acc entries).1 = acc.1 := by
  intro entries
  induction entries with
  | nil => intro acc _; rfl
  | cons e rest ih =>
      intro acc hnone
      obtain ⟨n, b⟩ := e
      have hn : n ≠ "model.onnx" := hnone (n, b) (by simp)
      have hrest : ∀ x ∈ rest, x.1 ≠ "model.onnx" := by
        intro x hx
        exact hnone x (by simp [hx])
      by_cases hs : n = "style_vectors.json"
      · simp only [scan_sbv2_entries_go, if_neg hn, if_pos hs]
        exact ih _ hrest
      · simp only [scan_sbv2_entries_go, if_neg hn, if_neg hs]
        exact ih _ hrest

/-- Once the vits2 slot is filled it stays filled for the rest of the
scan. -/
theorem scan_go_vits2_mono :
    ∀ (entries : List (String × Nat)) (acc : Option Nat × Option Nat),
      acc.1.isSome → (scan_sbv2_entries_go acc entries).1.isSome := by
  intro entries
  induction entries with
  | nil => intro acc h; exact h
  | cons e rest ih =>
      intro acc h
      obtain ⟨n, b⟩ := e
      by_cases hm : n = "model.onnx"
      · simp only [scan_sbv2_entries_go, hm, if_pos rfl]
        exact ih _ (by simp)
      · by_cases hs : n = "style_vectors.json"
        · simp only [scan_sbv2_entries_go, if_neg hm, if_pos hs]
          exact ih _ h
        · simp only [scan_sbv2_entries_go, if_neg hm, if_neg hs]
          exact ih _ h

/-- If some entry is named `model.onnx`, the vits2 slot ends up filled. -/
theorem scan_go_vits2_found :
    ∀ (entries : List (String × Nat)) (acc : Option Nat × Option Nat),
      (∃ e ∈ entries, e.1 = "model.onnx") →
      (scan_sbv2_entries_go acc entries).1.isSome := by
  intro entries
  induction entries with
  | nil => intro acc h; obtain ⟨e, he, _⟩ := h; cases he
  | cons e rest ih =>
      intro acc h
      obtain ⟨n, b⟩ := e
      by_cases hm : n = "model.onnx"
      · simp only [scan_sbv2_entries_go, hm, if_pos rfl]
        exact scan_go_vits2_mono rest _ (by simp)
      · obtain ⟨x, hx, hxeq⟩ := h
        rcases List.mem_cons.mp hx with hhead | htail
        · exfalso; apply hm; rw [← hxeq, hhead]
        · by_cases hs : n = "style_vectors.json"
          · simp only [scan_sbv2_entries_go, if_neg hm, if_pos hs]
            exact ih _ ⟨x, htail, hxeq⟩
          · simp only [scan_sbv2_entries_go, if_neg hm, if_neg hs]
            exact ih _ ⟨x, htail, hxeq⟩

/-- Claim C9: for every archive (modelled, after zstd decompression and
tar parsing, as its list of named entries) that contains a `model.onnx`
member but no `style_vectors.json` member, `load_from_sbv2file` fails with
the model-not-found error naming the style vectors ("style_vectors not
found"), leaving the holder untouched; and when both members are missing
the error names both ("vits2, style_vectors not found"). -/
theorem load_from_sbv2file_missing_members :
    ∀ (entries : List (String × Nat)),
      ((∃ e ∈ entries, e.1 = "model.onnx") →
       (∀ e ∈ entries, e.1 ≠ "style_vectors.json") →
       ∀ (loadStyle lms : Nat → Except Sbv2CoreError Nat)
         (h : TtsModelHolder) (ident : String),
         h.load_from_sbv2file loadStyle lms ident entries =
           (h, Except.error
             (Sbv2CoreError.ModelNotFoundError "style_vectors not found"))) ∧
      ((∀ e ∈ entries, e.1 ≠ "model.onnx") →
       (∀ e ∈ entries, e.1 ≠ "style_vectors.json") →
       ∀ (loadStyle lms : Nat → Except Sbv2CoreError Nat)
         (h : TtsModelHolder) (ident : String),
         h.load_from_sbv2file loadStyle lms ident entries =
           (h, Except.error
             (Sbv2CoreError.ModelNotFoundError "vits2, style_vectors not found"))) := by
  intro entries
  constructor
  · intro hvits hstyle loadStyle lms h ident
    have h2 : (scan_sbv2_entries_go (none, none) entries).2 = none :=
      scan_go_style_slot entries (none, none) hstyle
    have h1 : (scan_sbv2_entries_go (none, none) entries).1.isSome :=
      scan_go_vits2_found entries (none, none) hvits
    obtain ⟨v, hv⟩ := Option.isSome_iff_exists.mp h1
    unfold TtsModelHolder.load_from_sbv2file extract_sbv2
    have hacc : scan_sbv2_entries_go (none, none) entries = (some v, none) := by
      have := Prod.mk.eta (p := scan_sbv2_entries_go (none, none) entries)
      rw [← this, hv, h2]
    rw [hacc]
  · intro hvits hstyle loadStyle lms h ident
    have h2 : (scan_sbv2_entries_go (none, none) entries).2 = none :=
      scan_go_style_slot entries (none, none) hstyle
    have h1 : (scan_sbv2_entries_go (none, none) entries).1 = none :=
      scan_go_vits2_slot entries (none, none) hvits
    unfold TtsModelHolder.load_from_sbv2file extract_sbv2
    have hacc : scan_sbv2_entries_go (none, none) entries = (none, none) := by
      have := Prod.mk.eta (p := scan_sbv2_entries_go (none, none) entries)
      rw [← this, h1, h2]
    rw [hacc]

/-- Witness for C9 at concrete archives: one with only `model.onnx`, one
with only unrelated members. -/
theorem load_from_sbv2file_missing_members_witness :
    (TtsModelHolder.new (some 2)).load_from_sbv2file oracle_ok oracle_ok "m"
        [("model.onnx", 5)] =
      (TtsModelHolder.new (some 2), Except.error
        (Sbv2CoreError.ModelNotFoundError "style_vectors not found")) ∧
    (TtsModelHolder.new (some 2)).load_from_sbv2file oracle_ok oracle_ok "m"
        [("readme.txt", 9)] =
      (TtsModelHolder.new (some 2), Except.error
        (Sbv2CoreError.ModelNotFoundError "vits2, style_vectors not found")) :=
  ⟨(load_from_sbv2file_missing_members [("model.onnx", 5)]).1
      ⟨("model.onnx", 5), by simp, rfl⟩ (by decide) oracle_ok oracle_ok
      (TtsModelHolder.new (some 2)) "m",
   (load_from_sbv2file_missing_members [("readme.txt", 9)]).2
      (by decide) (by decide) oracle_ok oracle_ok
      (TtsModelHolder.new (some 2)) "m"⟩

/-! ## Claim C2: sentence-split synthesis of a two-line input -/

/-- The inserted zero block has 22050 samples. -/
theorem silence_block_length : silence_block.length = 22050 := by
  unfold silence_block
  exact List.length_replicate 22050 0

/-- Counterexample to claim C2 as stated: for a two-line input (both lines
non-empty) the synthesis loop does produce three segments with a zero
block in the middle, but that block has 22050 samples
(`Array3::zeros((1, 1, 22050))`), not one second at the fixed 44100 Hz
rate: 22050 ≠ 44100. -/
theorem synthesize_split_silence_not_one_second :
    (synthesize_split_segments (fun _ => [1]) "a\nb").length = 3 ∧
    (synthesize_split_segments (fun _ => [1]) "a\nb")[1]? = some silence_block ∧
    silence_block = List.replicate 22050 (0 : Int) ∧
    silence_block.length ≠ wav_sample_rate := by
  refine ⟨rfl, rfl, rfl, ?_⟩
  rw [silence_block_length]
  decide

/-- Claim C2 (amended): with `split_sentences` enabled, a two-line input
(both lines non-empty) yields three waveform segments concatenated along
the sample axis, the middle one being the fixed zero block of 22050
samples — half a second at the 44100 Hz output rate, not a full second. -/
theorem synthesize_split_two_lines
    (vocoder : String → List Int) (text : String) (t1 t2 : String)
    (hsplit : (split_char '\n' text.toList).map (fun l => String.mk l) = [t1, t2])
    (h1 : t1 ≠ "") (h2 : t2 ≠ "") :
    synthesize_split_segments vocoder text =
        [vocoder t1, silence_block, vocoder t2] ∧
    synthesize_split_audio vocoder text =
        some (vocoder t1 ++ silence_block ++ vocoder t2) ∧
    silence_block = List.replicate 22050 (0 : Int) ∧
    2 * silence_block.length = wav_sample_rate := by
  have hseg : synthesize_split_segments vocoder text =
      [vocoder t1, silence_block, vocoder t2] := by
    unfold synthesize_split_segments
    rw [hsplit]
    simp [synthesize_audios_go, h1, h2]
  refine ⟨hseg, ?_, rfl, by rw [silence_block_length]; decide⟩
  unfold synthesize_split_audio
  rw [hseg]
  simp

/-- Witness for C2 (amended) at the concrete two-line input "a\nb". -/
theorem synthesize_split_two_lines_witness :
    synthesize_split_segments (fun _ => [5, 6]) "a\nb" =
        [[5, 6], silence_block, [5, 6]] ∧
    synthesize_split_audio (fun _ => [5, 6]) "a\nb" =
        some ([5, 6] ++ silence_block ++ [5, 6]) ∧
    silence_block = List.replicate 22050 (0 : Int) ∧
    2 * silence_block.length = wav_sample_rate :=
  synthesize_split_two_lines (fun _ => [5, 6]) "a\nb" "a" "b" rfl
    (by decide) (by decide)

/-! ## Claim C3: per-phoneme feature matrix row count -/

/-- Counterexample to claim C3's arithmetic: for `word2ph = [1, 2, 3]` the
adjustment doubles every count — the first boundary unit included — and
then adds 1 to the first entry, giving `[3, 4, 6]`; the broadcast
therefore has 13 rows, not `1 + 2*2 + 3*2 + 1 = 12`. -/
theorem phone_level_feature_rows_not_12 :
    word2ph_adjust [1, 2, 3] = some [3, 4, 6] ∧
    (phone_level_feature [[0], [0], [0]] [3, 4, 6]).map List.length = some 13 ∧
    (phone_level_feature [[0], [0], [0]] [3, 4, 6]).map List.length ≠ some 12 := by
  refine ⟨rfl, rfl, ?_⟩
  decide

/-- Doubling every entry doubles the sum. -/
theorem sum_map_double (t : List Int) :
    (t.map (fun x => x * 2)).sum = t.sum * 2 := by
  induction t with
  | nil => rfl
  | cons a t ih =>
      simp only [List.map_cons, List.sum_cons, ih]
      ring

/-- The accumulation loop produces one row per phoneme unit: for
nonnegative counts and a bert matrix with enough rows, the block list is
produced and its row count is the sum of the counts. -/
theorem phone_level_feature_go_length (bert : List (List Int)) :
    ∀ (w : List Int) (i : Nat), (∀ x ∈ w, 0 ≤ x) → i + w.length ≤ bert.length →
      ∃ rows, phone_level_feature_go bert i w = some rows ∧
        (rows.length : Int) = w.sum := by
  intro w
  induction w with
  | nil =>
      intro i _ _
      exact ⟨[], rfl, by simp⟩
  | cons reps rest ih =>
      intro i hnn hlen
      have hi : i < bert.length := by
        simp only [List.length_cons] at hlen
        omega
      obtain ⟨row, hrow⟩ : ∃ row, bert[i]? = some row := by
        rw [List.getElem?_eq_getElem hi]
        exact ⟨_, rfl⟩
      obtain ⟨tail, htail, htlen⟩ := ih (i + 1)
        (fun x hx => hnn x (List.mem_cons_of_mem _ hx))
        (by simp only [List.length_cons] at hlen; omega)
      refine ⟨List.replicate reps.toNat row ++ tail, ?_, ?_⟩
      · simp only [phone_level_feature_go, repeat_feature, hrow, htail]
      · have hreps : (0 : Int) ≤ reps := hnn reps (List.mem_cons_self _ _)
        simp only [List.length_append, List.length_replicate, List.sum_cons]
        push_cast
        rw [htlen, Int.toNat_of_nonneg hreps]

/-- Claim C3 (amended): the per-phoneme feature matrix assembled by
`parse_text_blocking` (before the final transpose) has one row per
phoneme unit, totalling the sum of the word2ph list after every count —
boundary units included — is doubled and 1 is added to the first entry;
so for `word2ph = [1, 2, 3]` the row count is `(1*2+1) + 2*2 + 3*2 = 13`
(not 12): the total is `2 * sum(word2ph) + 1`. -/
theorem phone_level_feature_rows
    (bert : List (List Int)) (word2ph : List Int)
    (hne : word2ph ≠ []) (hnn : ∀ x ∈ word2ph, 0 ≤ x)
    (hlen : word2ph.length ≤ bert.length) :
    ∃ adj rows, word2ph_adjust word2ph = some adj ∧
      phone_level_feature bert adj = some rows ∧
      (rows.length : Int) = adj.sum ∧
      adj.sum = 2 * word2ph.sum + 1 := by
  obtain ⟨h, t, rfl⟩ : ∃ h t, word2ph = h :: t := by
    cases word2ph with
    | nil => exact absurd rfl hne
    | cons h t => exact ⟨h, t, rfl⟩
  refine ⟨(h * 2 + 1) :: t.map (fun x => x * 2), ?_⟩
  have hadj : word2ph_adjust (h :: t) =
      some ((h * 2 + 1) :: t.map (fun x => x * 2)) := by
    simp [word2ph_adjust]
  have hnn2 : ∀ x ∈ (h * 2 + 1) :: t.map (fun x => x * 2), (0 : Int) ≤ x := by
    intro x hx
    rcases List.mem_cons.mp hx with hx0 | hxm
    · have := hnn h (List.mem_cons_self _ _)
      omega
    · obtain ⟨y, hy, rfl⟩ := List.mem_map.mp hxm
      have := hnn y (List.mem_cons_of_mem _ hy)
      omega

  have hlen2 : 0 + ((h * 2 + 1) :: t.map (fun x => x * 2)).length ≤ bert.length := by
    simpa using hlen
  obtain ⟨rows, hrows, hrlen⟩ :=
    phone_level_feature_go_length bert ((h * 2 + 1) :: t.map (fun x => x * 2)) 0
      hnn2 hlen2
  refine ⟨rows, hadj, hrows, hrlen, ?_⟩
  simp only [List.sum_cons, sum_map_double]
  ring

/-- Witness for C3 (amended) at the concrete `word2ph = [1, 2, 3]` and a
bert matrix with three rows. -/
theorem phone_level_feature_rows_witness :
    ∃ adj rows, word2ph_adjust [1, 2, 3] = some adj ∧
      phone_level_feature [[0], [0], [0]] adj = some rows ∧
      (rows.length : Int) = adj.sum ∧
      adj.sum = 2 * ([1, 2, 3] : List Int).sum + 1 :=
  phone_level_feature_rows [[0], [0], [0]] [1, 2, 3] (by decide) (by decide)
    (by decide)

/-! ## Claim C7: distribute_phone -/

/-- Counterexample to claim C7 as universally stated: with `n_word = 0`
and `n_phone = 1`, the first loop iteration calls `.min().unwrap()` on the
empty load vector — a panic (`none`), not a returned list (no length-0
list could sum to 1 anyway). -/
theorem distribute_phone_zero_words_panics : distribute_phone 1 0 = none := rfl

/-- Folding `min` over a constant block. -/
theorem foldl_min_replicate (q : Int) :
    ∀ (s : Nat) (a : Int),
      (List.replicate s q).foldl min a = if s = 0 then a else min a q := by
  intro s
  induction s with
  | zero => intro a; rfl
  | succ s ih =>
      intro a
      rw [List.replicate_succ, List.foldl_cons, ih]
      by_cases hs : s = 0
      · rw [if_pos hs]
        simp
      · rw [if_neg hs, min_assoc, min_self]
        simp

/-- The minimum of a balanced two-level load vector is the lower level. -/
theorem min?_shape (q : Int) (r s : Nat) (hs : 1 ≤ s) :
    (List.replicate r (q + 1) ++ List.replicate s q).min? = some q := by
  obtain ⟨t, rfl⟩ : ∃ t, s = t + 1 := ⟨s - 1, by omega⟩
  cases r with
  | zero =>
      rw [List.replicate_zero, List.nil_append, List.replicate_succ]
      show some ((List.replicate t q).foldl min q) = some q
      rw [foldl_min_replicate]
      by_cases ht : t = 0 <;> simp [ht]
  | succ r1 =>
      rw [List.replicate_succ, List.cons_append]
      show some ((List.replicate r1 (q + 1) ++ List.replicate (t + 1) q).foldl
        min (q + 1)) = some q
      rw [List.foldl_append, foldl_min_replicate, foldl_min_replicate]
      have h1 : (if r1 = 0 then q + 1 else min (q + 1) (q + 1)) = q + 1 := by
        by_cases hr : r1 = 0 <;> simp [hr]
      rw [h1, if_neg (by omega : ¬ t + 1 = 0), min_eq_right (by omega : q ≤ q + 1)]

/-- The first index carrying the lower level is just past the raised
block. -/
theorem indexOf_shape (q : Int) :
    ∀ (r s : Nat), 1 ≤ s →
      (List.replicate r (q + 1) ++ List.replicate s q).indexOf q = r := by
  intro r
  induction r with
  | zero =>
      intro s hs
      obtain ⟨t, rfl⟩ : ∃ t, s = t + 1 := ⟨s - 1, by omega⟩
      rw [List.replicate_zero, List.nil_append, List.replicate_succ]
      exact List.indexOf_cons_self q _
  | succ r1 ih =>
      intro s hs
      rw [List.replicate_succ, List.cons_append,
        List.indexOf_cons_ne _ (by omega : q + 1 ≠ q), ih s hs]

/-- Incrementing the slot just past the raised block extends the raised
block by one. -/
theorem set_shape (q : Int) :
    ∀ (r s : Nat), 1 ≤ s →
      (List.replicate r (q + 1) ++ List.replicate s q).set r (q + 1) =
        List.replicate (r + 1) (q + 1) ++ List.replicate (s - 1) q := by
  intro r
  induction r with
  | zero =>
      intro s hs
      obtain ⟨t, rfl⟩ : ∃ t, s = t + 1 := ⟨s - 1, by omega⟩
      rw [List.replicate_zero, List.nil_append, List.replicate_succ]
      rfl
  | succ r1 ih =>
      intro s hs
      rw [List.replicate_succ, List.cons_append]
      show (q + 1) :: (List.replicate r1 (q + 1) ++ List.replicate s q).set r1 (q + 1) =
        List.replicate (r1 + 1 + 1) (q + 1) ++ List.replicate (s - 1) q
      rw [ih s hs, List.replicate_succ (q + 1) (r1 + 1), List.cons_append]

/-- One loop iteration on a balanced load vector raises the first
least-loaded slot. -/
theorem min_step_shape (q : Int) (r s : Nat) (hs : 1 ≤ s) :
    min_step (List.replicate r (q + 1) ++ List.replicate s q) =
      some (List.replicate (r + 1) (q + 1) ++ List.replicate (s - 1) q) := by
  unfold min_step
  simp only [min?_shape q r s hs, indexOf_shape q r s hs, set_shape q r s hs]

/-- Closed form of the distribution loop: after `j` increments the load
vector is `j % n` slots at `j / n + 1` followed by the rest at `j / n`,
and `k` further iterations move it to the same shape for `j + k`. -/
theorem distribute_go_shape (n : Nat) (hn : 0 < n) :
    ∀ (k j : Nat),
      distribute_phone_go k
        (List.replicate (j % n) (((j / n : Nat) : Int) + 1) ++
          List.replicate (n - j % n) ((j / n : Nat) : Int)) =
      some (List.replicate ((j + k) % n) ((((j + k) / n : Nat) : Int) + 1) ++
        List.replicate (n - (j + k) % n) (((j + k) / n : Nat) : Int)) := by
  intro k
  induction k with
  | zero => intro j; simp [distribute_phone_go]
  | succ k ih =>
      intro j
      have hmod : j % n < n := Nat.mod_lt _ hn
      have hs : 1 ≤ n - j % n := by omega
      simp only [distribute_phone_go,
        min_step_shape ((j / n : Nat) : Int) (j % n) (n - j % n) hs]
      have key : List.replicate (j % n + 1) (((j / n : Nat) : Int) + 1) ++
          List.replicate (n - j % n - 1) ((j / n : Nat) : Int) =
          List.replicate ((j + 1) % n) ((((j + 1) / n : Nat) : Int) + 1) ++
          List.replicate (n - (j + 1) % n) (((j + 1) / n : Nat) : Int) := by
        by_cases hcase : j % n + 1 < n
        · have hm : (j + 1) % n = j % n + 1 := by
            conv_lhs => rw [← Nat.div_add_mod j n]
            rw [Nat.add_assoc, Nat.mul_add_mod, Nat.mod_eq_of_lt hcase]
          have hd : (j + 1) / n = j / n := by
            conv_lhs => rw [← Nat.div_add_mod j n]
            rw [Nat.add_assoc, Nat.mul_add_div hn, Nat.div_eq_of_lt hcase]
            omega
          rw [hm, hd, show n - (j % n + 1) = n - j % n - 1 from by omega]
        · have hEq : j % n + 1 = n := by omega
          have hm : (j + 1) % n = 0 := by
            conv_lhs => rw [← Nat.div_add_mod j n]
            rw [Nat.add_assoc, hEq,
              show n * (j / n) + n = n * (j / n + 1) from by ring]
            exact Nat.mul_mod_right n _
          have hd : (j + 1) / n = j / n + 1 := by
            conv_lhs => rw [← Nat.div_add_mod j n]
            rw [Nat.add_assoc, hEq,
              show n * (j / n) + n = n * (j / n + 1) from by ring]
            exact Nat.mul_div_cancel_left _ hn
          rw [hm, hd, hEq, show n - j % n - 1 = 0 from by omega]
          push_cast
          simp
      rw [key, show j + (k + 1) = (j + 1) + k from by omega]
      exact ih (j + 1)

/-- Claim C7 (amended): for every `n_phone ≥ 0` and `n_word ≥ 1`,
`distribute_phone` returns a list of length `n_word` summing to `n_phone`
with pairwise gaps at most 1 (max − min ≤ 1), ties going to the lowest
index — in particular `distribute_phone 5 3 = [2, 2, 1]`. (`n_word = 0`
with `n_phone ≥ 1` panics, see the counterexample.) -/
theorem distribute_phone_even_split :
    (∀ (n_phone n_word : Int), 0 ≤ n_phone → 1 ≤ n_word →
      ∃ l, distribute_phone n_phone n_word = some l ∧
        l.length = n_word.toNat ∧ l.sum = n_phone ∧
        ∀ x ∈ l, ∀ y ∈ l, x ≤ y + 1) ∧
    distribute_phone 5 3 = some [2, 2, 1] := by
  constructor
  · intro n_phone n_word hp hw
    have hn : 0 < n_word.toNat := by omega
    have hinit :
        List.replicate ((0 : Nat) % n_word.toNat)
            ((((0 : Nat) / n_word.toNat : Nat) : Int) + 1) ++
          List.replicate (n_word.toNat - (0 : Nat) % n_word.toNat)
            (((0 : Nat) / n_word.toNat : Nat) : Int) =
          List.replicate n_word.toNat (0 : Int) := by
      simp
    have hgo := distribute_go_shape n_word.toNat hn n_phone.toNat 0
    rw [hinit] at hgo
    simp only [Nat.zero_add] at hgo
    have hmod : n_phone.toNat % n_word.toNat < n_word.toNat :=
      Nat.mod_lt _ hn
    refine ⟨_, hgo, ?_, ?_, ?_⟩
    · simp only [List.length_append, List.length_replicate]
      omega
    · have hle : n_phone.toNat % n_word.toNat ≤ n_word.toNat := by omega
      have hdm : n_word.toNat * (n_phone.toNat / n_word.toNat) +
          n_phone.toNat % n_word.toNat = n_phone.toNat :=
        Nat.div_add_mod n_phone.toNat n_word.toNat
      simp only [List.sum_append, List.sum_replicate, nsmul_eq_mul]
      rw [Nat.cast_sub hle]
      have hfin : ((n_phone.toNat : Nat) : Int) = n_phone :=
        Int.toNat_of_nonneg hp
      calc (n_phone.toNat % n_word.toNat : Int) *
              (((n_phone.toNat / n_word.toNat : Nat) : Int) + 1) +
            ((n_word.toNat : Int) - (n_phone.toNat % n_word.toNat : Int)) *
              ((n_phone.toNat / n_word.toNat : Nat) : Int)
          = ((n_word.toNat * (n_phone.toNat / n_word.toNat) +
              n_phone.toNat % n_word.toNat : Nat) : Int) := by
            push_cast
            ring
        _ = n_phone := by rw [hdm, hfin]
    · intro x hx y hy
      have hx2 : x = ((n_phone.toNat / n_word.toNat : Nat) : Int) + 1 ∨
          x = ((n_phone.toNat / n_word.toNat : Nat) : Int) := by
        rcases List.mem_append.mp hx with h | h
        · exact Or.inl (List.eq_of_mem_replicate h)
        · exact Or.inr (List.eq_of_mem_replicate h)
      have hy2 : y = ((n_phone.toNat / n_word.toNat : Nat) : Int) + 1 ∨
          y = ((n_phone.toNat / n_word.toNat : Nat) : Int) := by
        rcases List.mem_append.mp hy with h | h
        · exact Or.inl (List.eq_of_mem_replicate h)
        · exact Or.inr (List.eq_of_mem_replicate h)
      rcases hx2 with rfl | rfl <;> rcases hy2 with h | h <;> rw [h] <;> omega
  · rfl

/-- Witness for C7 (amended) at `distribute_phone 5 3`. -/
theorem distribute_phone_even_split_witness :
    ∃ l, distribute_phone 5 3 = some l ∧ l.length = (3 : Int).toNat ∧
      l.sum = 5 ∧ ∀ x ∈ l, ∀ y ∈ l, x ≤ y + 1 :=
  distribute_phone_even_split.1 5 3 (by decide) (by decide)

/-! ## Claim C5: fix_phone_tone tone validation -/

/-- `sameSet` is membership equivalence. -/
theorem sameSet_iff (a b : List Int) :
    sameSet a b = true ↔ ∀ x : Int, x ∈ a ↔ x ∈ b := by
  simp only [sameSet, Bool.and_eq_true, List.all_eq_true, List.contains,
    List.elem_iff]
  constructor
  · rintro ⟨h1, h2⟩ x
    exact ⟨fun hx => h1 x hx, fun hx => h2 x hx⟩
  · intro h
    exact ⟨fun x hx => (h x).mp hx, fun x hx => (h x).mpr hx⟩

/-- A duplicate-free list with the same members as `b` has as many
elements as `b` has distinct members. -/
theorem length_of_sameSet {tv b : List Int} (hnd : tv.Nodup)
    (h : sameSet tv b = true) : tv.length = b.toFinset.card := by
  have hmem := (sameSet_iff tv b).mp h
  have hfs : tv.toFinset = b.toFinset := by
    ext x
    simp only [List.mem_toFinset]
    exact hmem x
  rw [← List.toFinset_card_of_nodup hnd, hfs]

/-- Counterexample to claim C5 as stated: a phrase whose single distinct
tone value is not 0 does not fail with the invalid-tone error — it trips
`assert!(tone_values == hash_set![0])` and panics (`none`). -/
theorem fix_phone_tone_singleton_panic : fix_phone_tone [("a", 5)] = none := by
  rfl

/-- Claim C5 (amended): `fix_phone_tone` succeeds iff the distinct-tone
set is exactly {0}, {0,1} or {-1,0}; the empty set, two-element sets other
than those, and sets of three or more distinct values fail with the
invalid-tone `ValueError`; but a singleton other than {0} fails the
`assert!` — a panic (`none`), not the typed error. -/
theorem fix_phone_tone_characterization :
    ∀ l : List (String × Int),
      ((∃ r, fix_phone_tone l = some (Except.ok r)) ↔
        (sameSet ((l.map Prod.snd).dedup) [0] = true ∨
         sameSet ((l.map Prod.snd).dedup) [0, 1] = true ∨
         sameSet ((l.map Prod.snd).dedup) [-1, 0] = true)) ∧
      (fix_phone_tone l = none ↔
        (((l.map Prod.snd).dedup).length = 1 ∧
         ¬ sameSet ((l.map Prod.snd).dedup) [0] = true)) ∧
      ((∃ e, fix_phone_tone l = some (Except.error e)) ↔
        (¬(sameSet ((l.map Prod.snd).dedup) [0] = true ∨
           sameSet ((l.map Prod.snd).dedup) [0, 1] = true ∨
           sameSet ((l.map Prod.snd).dedup) [-1, 0] = true) ∧
         ((l.map Prod.snd).dedup).length ≠ 1)) := by
  intro l
  have hnd := List.nodup_dedup (l.map Prod.snd)
  set tv := (l.map Prod.snd).dedup with htv
  have len0 : sameSet tv [0] = true → tv.length = 1 := by
    intro h
    rw [length_of_sameSet hnd h]
    rfl
  have len01 : sameSet tv [0, 1] = true → tv.length = 2 := by
    intro h
    rw [length_of_sameSet hnd h]
    rfl
  have lenm10 : sameSet tv [-1, 0] = true → tv.length = 2 := by
    intro h
    rw [length_of_sameSet hnd h]
    rfl
  have hunfold : fix_phone_tone l =
      (if tv.length = 1 then
        (if sameSet tv [0] then some (Except.ok l) else none)
       else if tv.length = 2 then
        (if sameSet tv [0, 1] then some (Except.ok l)
         else if sameSet tv [-1, 0] then
           some (Except.ok (l.map fun x => (x.1, if x.2 = -1 then (0 : Int) else 1)))
         else some (Except.error (Sbv2CoreError.ValueError "Invalid tone values 0")))
       else some (Except.error (Sbv2CoreError.ValueError "Invalid tone values 1"))) :=
    rfl
  rw [hunfold]
  by_cases hL1 : tv.length = 1
  · rw [if_pos hL1]
    by_cases hS0 : sameSet tv [0] = true
    · rw [if_pos hS0]
      refine ⟨⟨fun _ => Or.inl hS0, fun _ => ⟨l, rfl⟩⟩, ?_, ?_⟩
      · exact ⟨fun h => by simp at h, fun h => absurd hS0 h.2⟩
      · constructor
        · rintro ⟨e, he⟩
          simp at he
        · rintro ⟨hnA, _⟩
          exact absurd (Or.inl hS0) hnA
    · rw [if_neg hS0]
      refine ⟨?_, ⟨fun _ => ⟨hL1, hS0⟩, fun _ => rfl⟩, ?_⟩
      · constructor
        · rintro ⟨r, hr⟩
          simp at hr
        · rintro (h | h | h)
          · exact absurd h hS0
          · have := len01 h
            omega
          · have := lenm10 h
            omega
      · constructor
        · rintro ⟨e, he⟩
          simp at he
        · rintro ⟨_, hne1⟩
          exact absurd hL1 hne1
  · rw [if_neg hL1]
    by_cases hL2 : tv.length = 2
    · rw [if_pos hL2]
      by_cases hS01 : sameSet tv [0, 1] = true
      · rw [if_pos hS01]
        refine ⟨⟨fun _ => Or.inr (Or.inl hS01), fun _ => ⟨l, rfl⟩⟩, ?_, ?_⟩
        · exact ⟨fun h => by simp at h, fun h => absurd h.1 hL1⟩
        · constructor
          · rintro ⟨e, he⟩
            simp at he
          · rintro ⟨hnA, _⟩
            exact absurd (Or.inr (Or.inl hS01)) hnA
      · rw [if_neg hS01]
        by_cases hSm : sameSet tv [-1, 0] = true
        · rw [if_pos hSm]
          refine ⟨⟨fun _ => Or.inr (Or.inr hSm), fun _ => ⟨_, rfl⟩⟩, ?_, ?_⟩
          · exact ⟨fun h => by simp at h, fun h => absurd h.1 hL1⟩
          · constructor
            · rintro ⟨e, he⟩
              simp at he
            · rintro ⟨hnA, _⟩
              exact absurd (Or.inr (Or.inr hSm)) hnA
        · rw [if_neg hSm]
          refine ⟨?_, ⟨fun h => by simp at h, fun h => absurd h.1 hL1⟩, ?_⟩
          · constructor
            · rintro ⟨r, hr⟩
              simp at hr
            · rintro (h | h | h)
              · have := len0 h
                exact absurd this hL1
              · exact absurd h hS01
              · exact absurd h hSm
          · constructor
            · intro _
              refine ⟨?_, hL1⟩
              rintro (h | h | h)
              · exact absurd (len0 h) hL1
              · exact absurd h hS01
              · exact absurd h hSm
            · intro _
              exact ⟨_, rfl⟩
    · rw [if_neg hL2]
      refine ⟨?_, ⟨fun h => by simp at h, fun h => absurd h.1 hL1⟩, ?_⟩
      · constructor
        · rintro ⟨r, hr⟩
          simp at hr
        · rintro (h | h | h)
          · exact absurd (len0 h) hL1
          · exact absurd (len01 h) hL2
          · exact absurd (lenm10 h) hL2
      · constructor
        · intro _
          refine ⟨?_, hL1⟩
          rintro (h | h | h)
          · exact absurd (len0 h) hL1
          · exact absurd (len01 h) hL2
          · exact absurd (lenm10 h) hL2
        · intro _
          exact ⟨_, rfl⟩

/-! ## Claims C6 and C1: the bounded model cache -/

theorem get_loadedmodel_count_limit (v : List UpperLimitTtsModel)
    (mx : Option Nat) :
    TtsModelHolder.get_loadedmodel_count ⟨EitherTtsModelVec.Limit v, mx⟩ =
      hotCount v := rfl

theorem hotCount_append (a b : List UpperLimitTtsModel) :
    hotCount (a ++ b) = hotCount a + hotCount b := by
  simp [hotCount, List.filter_append]

theorem hotCount_cons (m : UpperLimitTtsModel) (v : List UpperLimitTtsModel) :
    hotCount (m :: v) = (if m.vits2.isSome then 1 else 0) + hotCount v := by
  by_cases h : m.vits2.isSome = true
  · simp [hotCount, List.filter_cons, h, Nat.add_comm]
  · simp [hotCount, List.filter_cons, h]

theorem identsOf_append (a b : List UpperLimitTtsModel) :
    identsOf (a ++ b) = identsOf a ++ identsOf b := by
  simp [identsOf]

theorem identsOf_cons (m : UpperLimitTtsModel) (v : List UpperLimitTtsModel) :
    identsOf (m :: v) = m.model_ident :: identsOf v := rfl

/-- Specification of the find-and-remove step: it returns the first entry
with the requested ident together with the list with that one occurrence
removed, order preserved. -/
theorem extract_first_spec (ident : String) :
    ∀ (v : List UpperLimitTtsModel) (m : UpperLimitTtsModel)
      (v1 : List UpperLimitTtsModel),
      extract_first ident v = some (m, v1) →
      m.model_ident = ident ∧
      ∃ p s, v = p ++ m :: s ∧ v1 = p ++ s ∧ ∀ x ∈ p, x.model_ident ≠ ident := by
  intro v
  induction v with
  | nil => intro m v1 h; cases h
  | cons e rest ih =>
      intro m v1 h
      by_cases he : e.model_ident = ident
      · simp only [extract_first, if_pos he] at h
        cases h
        exact ⟨he, [], rest, rfl, rfl, by simp⟩
      · simp only [extract_first, if_neg he] at h
        cases hrec : extract_first ident rest with
        | none => rw [hrec] at h; cases h
        | some pair =>
            obtain ⟨x, r⟩ := pair
            rw [hrec] at h
            simp only [Option.map_some'] at h
            have hmv : (x, e :: r) = (m, v1) := Option.some.inj h
            have h1 : x = m := congrArg Prod.fst hmv
            have h2 : e :: r = v1 := congrArg Prod.snd hmv
            subst h1
            subst h2
            obtain ⟨hid, pp, ss, hveq, hv1eq, hpnot⟩ := ih x r hrec
            refine ⟨hid, e :: pp, ss, by rw [hveq]; rfl, by rw [hv1eq]; rfl, ?_⟩
            intro y hy
            rcases List.mem_cons.mp hy with rfl | hy2
            · exact he
            · exact hpnot y hy2

/-- `session_unload` keeps every registration: idents, weight bytes and
style vectors are untouched (only a session field may be cleared). -/
theorem session_unload_list_registrations (ident : String) :
    ∀ v : List UpperLimitTtsModel,
      (session_unload_list ident v).map
          (fun m => (m.model_ident, m.bytes, m.style_vectors)) =
        v.map (fun m => (m.model_ident, m.bytes, m.style_vectors)) := by
  intro v
  induction v with
  | nil => rfl
  | cons e rest ih =>
      by_cases he : e.model_ident = ident
      · simp [session_unload_list, he]
      · simp [session_unload_list, he, ih]

theorem session_unload_list_idents (ident : String) :
    ∀ v : List UpperLimitTtsModel,
      identsOf (session_unload_list ident v) = identsOf v := by
  intro v
  induction v with
  | nil => rfl
  | cons e rest ih =>
      by_cases he : e.model_ident = ident
      · simp [session_unload_list, identsOf, he]
      · simp only [session_unload_list, if_neg he, identsOf_cons, ih]

theorem hotCount_session_unload_le (ident : String) :
    ∀ v : List UpperLimitTtsModel,
      hotCount (session_unload_list ident v) ≤ hotCount v := by
  intro v
  induction v with
  | nil => exact Nat.le_refl _
  | cons e rest ih =>
      by_cases he : e.model_ident = ident
      · simp only [session_unload_list, if_pos he, hotCount_cons]
        simp
      · simp only [session_unload_list, if_neg he, hotCount_cons]
        omega

/-- Clearing the session of the first hot entry (by its ident, under
unique idents) lowers the hot count by exactly one. -/
theorem hotCount_session_unload_first_hot :
    ∀ (v : List UpperLimitTtsModel) (fm : UpperLimitTtsModel),
      (identsOf v).Nodup →
      v.find? (fun m => m.vits2.isSome) = some fm →
      hotCount (session_unload_list fm.model_ident v) + 1 = hotCount v := by
  intro v
  induction v with
  | nil => intro fm _ hfind; cases hfind
  | cons e rest ih =>
      intro fm hnd hfind
      by_cases hhot : e.vits2.isSome = true
      · simp only [List.find?_cons, hhot] at hfind
        cases hfind
        unfold session_unload_list
        rw [if_pos rfl, hotCount_cons, hotCount_cons]
        simp [hhot]
        omega
      · have hf : e.vits2.isSome = false := by simpa using hhot
        simp only [List.find?_cons, hf] at hfind
        have hfm_mem := List.mem_of_find?_eq_some hfind
        have hnd2 := hnd
        rw [identsOf_cons, List.nodup_cons] at hnd2
        have hne : e.model_ident ≠ fm.model_ident := by
          intro heq
          exact hnd2.1 (heq ▸ List.mem_map.mpr ⟨fm, hfm_mem, rfl⟩)
        simp only [session_unload_list, if_neg hne, hotCount_cons]
        have := ih fm hnd2.2 hfind
        omega

theorem hotCount_eq_zero_of_no_hot (v : List UpperLimitTtsModel)
    (h : v.find? (fun m => m.vits2.isSome) = none) : hotCount v = 0 := by
  have hall := List.find?_eq_none.mp h
  simp only [hotCount, List.length_eq_zero]
  exact List.filter_eq_nil_iff.mpr hall

theorem not_mem_idents_of_any_false {v : List UpperLimitTtsModel}
    {ident : String}
    (h : v.any (fun m => m.model_ident = ident) = false) :
    ident ∉ identsOf v := by
  intro hmem
  obtain ⟨m, hm, hmid⟩ := List.mem_map.mp hmem
  have := List.any_eq_false.mp h m hm
  simp [hmid] at this

theorem nodup_idents_append_one {v : List UpperLimitTtsModel}
    {e : UpperLimitTtsModel}
    (hnd : (identsOf v).Nodup) (hnm : e.model_ident ∉ identsOf v) :
    (identsOf (v ++ [e])).Nodup := by
  rw [identsOf_append]
  rw [List.nodup_append]
  refine ⟨hnd, List.nodup_singleton _, ?_⟩
  intro a ha hb
  simp only [identsOf, List.map_cons, List.map_nil, List.mem_singleton] at hb
  exact hnm (hb ▸ ha)

theorem identsOf_sublist {a b : List UpperLimitTtsModel} (h : a.Sublist b) :
    (identsOf a).Sublist (identsOf b) := by
  unfold identsOf
  exact List.Sublist.map _ h

theorem session_unload_limit (v : List UpperLimitTtsModel) (mx : Option Nat)
    (ident : String) :
    TtsModelHolder.session_unload ⟨EitherTtsModelVec.Limit v, mx⟩ ident =
      ⟨EitherTtsModelVec.Limit (session_unload_list ident v), mx⟩ := rfl

/-- `load` preserves the bounded-cache invariant. -/
theorem load_preserves_inv (cap : Nat)
    (loadStyle lms : Nat → Except Sbv2CoreError Nat)
    (h : TtsModelHolder) (ident : String) (sb vb : Nat)
    (hinv : CacheInv cap h) :
    CacheInv cap (h.load loadStyle lms ident sb vb).1 := by
  obtain ⟨hmax, v, hv, hhot, hnd⟩ := hinv
  have hh : h = ⟨EitherTtsModelVec.Limit v, some cap⟩ := by rw [← hv, ← hmax]
  subst hh
  unfold TtsModelHolder.load
  by_cases hany : TtsModelHolder.has_model
      ⟨EitherTtsModelVec.Limit v, some cap⟩ ident = true
  · rw [if_pos hany]
    exact ⟨rfl, v, rfl, hhot, hnd⟩
  · rw [if_neg hany]
    have hanyf : v.any (fun m => m.model_ident = ident) = false := by
      have := hany
      unfold TtsModelHolder.has_model at this
      simpa using this
    have hnotin : ident ∉ identsOf v := not_mem_idents_of_any_false hanyf
    dsimp only
    cases hstyle : loadStyle sb with
    | error e =>
        simp only [hstyle]
        exact ⟨rfl, v, rfl, hhot, hnd⟩
    | ok sv =>
        simp only [hstyle]
        by_cases hged : TtsModelHolder.is_max_models_loaded
            ⟨EitherTtsModelVec.Limit v, some cap⟩ = true
        · rw [if_pos hged]
          dsimp only
          refine ⟨rfl, v ++ [⟨ident, none, vb, sv⟩], rfl, ?_, ?_⟩
          · rw [hotCount_append]
            have h0 : hotCount [(⟨ident, none, vb, sv⟩ : UpperLimitTtsModel)] = 0 := rfl
            omega
          · exact nodup_idents_append_one hnd hnotin
        · rw [if_neg hged]
          have hlt : hotCount v < cap := by
            have hd : TtsModelHolder.is_max_models_loaded
                ⟨EitherTtsModelVec.Limit v, some cap⟩ =
                decide (hotCount v ≥ cap) := rfl
            rw [hd] at hged
            simpa using hged
          cases hlms : lms vb with
          | error e =>
              simp only [hlms, Except.map]
              exact ⟨rfl, v, rfl, hhot, hnd⟩
          | ok s =>
              simp only [hlms, Except.map]
              refine ⟨rfl, v ++ [⟨ident, some s, vb, sv⟩], rfl, ?_, ?_⟩
              · rw [hotCount_append]
                have h1 : hotCount [(⟨ident, some s, vb, sv⟩ : UpperLimitTtsModel)] = 1 := rfl
                omega
              · exact nodup_idents_append_one hnd hnotin

/-- `unload` preserves the bounded-cache invariant. -/
theorem unload_preserves_inv (cap : Nat) (h : TtsModelHolder) (ident : String)
    (hinv : CacheInv cap h) :
    CacheInv cap (h.unload ident).1 := by
  obtain ⟨hmax, v, hv, hhot, hnd⟩ := hinv
  have hh : h = ⟨EitherTtsModelVec.Limit v, some cap⟩ := by rw [← hv, ← hmax]
  subst hh
  unfold TtsModelHolder.unload
  dsimp only
  by_cases hany : v.any (fun m => m.model_ident = ident) = true
  · rw [if_pos hany]
    refine ⟨rfl, v.eraseP (fun m => m.model_ident = ident), rfl, ?_, ?_⟩
    · have hle : hotCount (v.eraseP (fun m => m.model_ident = ident)) ≤ hotCount v :=
        (List.Sublist.filter _ (List.eraseP_sublist v)).length_le
      omega
    · exact List.Nodup.sublist (identsOf_sublist (List.eraseP_sublist v)) hnd
  · rw [if_neg hany]
    exact ⟨rfl, v, rfl, hhot, hnd⟩

/-- `model_session_preparation` preserves the bounded-cache invariant
(for `cap ≥ 1`), on success and on failure alike. -/
theorem prep_preserves_inv (cap : Nat) (hcap : 1 ≤ cap)
    (lms : Nat → Except Sbv2CoreError Nat)
    (h : TtsModelHolder) (ident : String)
    (hinv : CacheInv cap h) :
    CacheInv cap (h.model_session_preparation lms ident).1 := by
  obtain ⟨hmax, v, hv, hhot, hnd⟩ := hinv
  have hh : h = ⟨EitherTtsModelVec.Limit v, some cap⟩ := by rw [← hv, ← hmax]
  subst hh
  unfold TtsModelHolder.model_session_preparation
  dsimp only
  cases hex : extract_first ident v with
  | none =>
      simp only [hex]
      exact ⟨rfl, v, rfl, hhot, hnd⟩
  | some pair =>
      obtain ⟨m, v1⟩ := pair
      simp only [hex]
      obtain ⟨hid, pp, ss, hveq, hv1eq, hpnot⟩ := extract_first_spec ident v m v1 hex
      by_cases hmhot : m.vits2.isSome = true
      · rw [if_pos hmhot]
        exact ⟨rfl, v, rfl, hhot, hnd⟩
      · rw [if_neg hmhot]
        have hv1hot : hotCount v1 = hotCount v := by
          rw [hveq, hv1eq, hotCount_append, hotCount_append, hotCount_cons]
          simp [hmhot]
        have hnd1 : (identsOf v1).Nodup := by
          have hsub : v1.Sublist v := by
            rw [hveq, hv1eq]
            exact List.Sublist.append_left (List.sublist_cons_self m ss) pp
          exact List.Nodup.sublist (identsOf_sublist hsub) hnd
        have hnotin : ident ∉ identsOf v1 := by
          have hndv := hnd
          rw [hveq, identsOf_append, identsOf_cons, List.nodup_append] at hndv
          obtain ⟨hnp, hncons, hdisj⟩ := hndv
          rw [List.nodup_cons] at hncons
          rw [hv1eq, identsOf_append]
          intro hmem
          rcases List.mem_append.mp hmem with hip | his
          · exact hdisj hip (by rw [hid]; exact List.mem_cons_self _ _)
          · exact hncons.1 (hid ▸ his)
        simp only [get_loadedmodel_count_limit, session_unload_limit]
        cases hfind : v1.find? (fun m => m.vits2.isSome) with
        | some fm =>
            simp only [hfind]
            by_cases hcond : hotCount v1 ≥ cap - 1
            · rw [if_pos hcond]
              cases hlms : lms m.bytes with
              | error e =>
                  simp only [hlms]
                  refine ⟨rfl, _, rfl, ?_, ?_⟩
                  · exact le_trans (hotCount_session_unload_le _ v1) (by omega)
                  · rw [session_unload_list_idents]
                    exact hnd1
              | ok sess =>
                  simp only [hlms]
                  refine ⟨rfl, _, rfl, ?_, ?_⟩
                  · rw [hotCount_append]
                    have hdec := hotCount_session_unload_first_hot v1 fm hnd1 hfind
                    have h1 : hotCount
                        [(⟨ident, some sess, m.bytes, m.style_vectors⟩ :
                          UpperLimitTtsModel)] = 1 := rfl
                    omega
                  · refine nodup_idents_append_one ?_ ?_
                    · rw [session_unload_list_idents]
                      exact hnd1
                    · rw [session_unload_list_idents]
                      exact hnotin
            · rw [if_neg hcond]
              cases hlms : lms m.bytes with
              | error e =>
                  simp only [hlms]
                  exact ⟨rfl, v1, rfl, by omega, hnd1⟩
              | ok sess =>
                  simp only [hlms]
                  refine ⟨rfl, _, rfl, ?_, ?_⟩
                  · rw [hotCount_append]
                    have h1 : hotCount
                        [(⟨ident, some sess, m.bytes, m.style_vectors⟩ :
                          UpperLimitTtsModel)] = 1 := rfl
                    omega
                  · exact nodup_idents_append_one hnd1 hnotin
        | none =>
            simp only [hfind]
            have hzero : hotCount v1 = 0 := hotCount_eq_zero_of_no_hot v1 hfind
            by_cases hcond : hotCount v1 ≥ cap - 1
            · rw [if_pos hcond]
              cases hlms : lms m.bytes with
              | error e =>
                  simp only [hlms]
                  refine ⟨rfl, _, rfl, ?_, ?_⟩
                  · exact le_trans (hotCount_session_unload_le _ v1) (by omega)
                  · rw [session_unload_list_idents]
                    exact hnd1
              | ok sess =>
                  simp only [hlms]
                  refine ⟨rfl, _, rfl, ?_, ?_⟩
                  · rw [hotCount_append]
                    have hle := hotCount_session_unload_le "" v1
                    have h1 : hotCount
                        [(⟨ident, some sess, m.bytes, m.style_vectors⟩ :
                          UpperLimitTtsModel)] = 1 := rfl
                    omega
                  · refine nodup_idents_append_one ?_ ?_
                    · rw [session_unload_list_idents]
                      exact hnd1
                    · rw [session_unload_list_idents]
                      exact hnotin
            · rw [if_neg hcond]
              cases hlms : lms m.bytes with
              | error e =>
                  simp only [hlms]
                  exact ⟨rfl, v1, rfl, by omega, hnd1⟩
              | ok sess =>
                  simp only [hlms]
                  refine ⟨rfl, _, rfl, ?_, ?_⟩
                  · rw [hotCount_append]
                    have h1 : hotCount
                        [(⟨ident, some sess, m.bytes, m.style_vectors⟩ :
                          UpperLimitTtsModel)] = 1 := rfl
                    omega
                  · exact nodup_idents_append_one hnd1 hnotin

/-- Every cache operation preserves the bounded-cache invariant. -/
theorem runOp_preserves_inv (cap : Nat) (hcap : 1 ≤ cap)
    (loadStyle lms : Nat → Except Sbv2CoreError Nat)
    (h : TtsModelHolder) (op : CacheOp)
    (hinv : CacheInv cap h) :
    CacheInv cap (runOp loadStyle lms h op) := by
  cases op with
  | load i sb vb => exact load_preserves_inv cap loadStyle lms h i sb vb hinv
  | unload i => exact unload_preserves_inv cap h i hinv
  | prep i => exact prep_preserves_inv cap hcap lms h i hinv
  | synthesize i => exact prep_preserves_inv cap hcap lms h i hinv

theorem runOps_preserves_inv (cap : Nat) (hcap : 1 ≤ cap)
    (loadStyle lms : Nat → Except Sbv2CoreError Nat) :
    ∀ (ops : List CacheOp) (h : TtsModelHolder), CacheInv cap h →
      CacheInv cap (runOps loadStyle lms ops h) := by
  intro ops
  induction ops with
  | nil => intro h hinv; exact hinv
  | cons op rest ih =>
      intro h hinv
      exact ih _ (runOp_preserves_inv cap hcap loadStyle lms h op hinv)

/-- Claim C6: starting from a holder constructed with
`max_loaded_models = Some cap` (`cap ≥ 1`), no sequence of `load`,
`unload`, `model_session_preparation`/`synthesize` operations ever makes
`get_loadedmodel_count` exceed `cap`; and eviction (`session_unload`) only
clears a session — every entry keeps its ident, weight bytes and style
vectors registered. -/
theorem bounded_cache_session_cap :
    (∀ (cap : Nat), 1 ≤ cap →
      ∀ (loadStyle lms : Nat → Except Sbv2CoreError Nat) (ops : List CacheOp),
        (runOps loadStyle lms ops
            (TtsModelHolder.new (some cap))).get_loadedmodel_count ≤ cap) ∧
    (∀ (h : TtsModelHolder) (ident : String),
      limit_registrations (h.session_unload ident) = limit_registrations h) := by
  constructor
  · intro cap hcap loadStyle lms ops
    have hinv0 : CacheInv cap (TtsModelHolder.new (some cap)) :=
      ⟨rfl, [], rfl, by simp [hotCount], by simp [identsOf]⟩
    obtain ⟨hmax, v, hv, hhot, hnd⟩ :=
      runOps_preserves_inv cap hcap loadStyle lms ops _ hinv0
    have hh : runOps loadStyle lms ops (TtsModelHolder.new (some cap)) =
        ⟨EitherTtsModelVec.Limit v, some cap⟩ := by
      calc runOps loadStyle lms ops (TtsModelHolder.new (some cap))
          = ⟨(runOps loadStyle lms ops (TtsModelHolder.new (some cap))).models,
             (runOps loadStyle lms ops
               (TtsModelHolder.new (some cap))).max_loaded_models⟩ := rfl
        _ = ⟨EitherTtsModelVec.Limit v, some cap⟩ := by rw [hv, hmax]
    rw [hh, get_loadedmodel_count_limit]
    exact hhot
  · intro h ident
    cases hm : h.models with
    | NoLimit w =>
        unfold TtsModelHolder.session_unload
        rw [hm]
    | Limit w =>
        unfold TtsModelHolder.session_unload
        rw [hm]
        unfold limit_registrations
        rw [hm]
        dsimp only
        exact session_unload_list_registrations ident w

/-- Witness for C6 at cap = 2 with a concrete operation sequence and a
concrete eviction. -/
theorem bounded_cache_session_cap_witness :
    (runOps oracle_ok oracle_ok demo_ops
        (TtsModelHolder.new (some 2))).get_loadedmodel_count ≤ 2 ∧
    limit_registrations ((TtsModelHolder.new (some 2)).session_unload "a") =
      limit_registrations (TtsModelHolder.new (some 2)) :=
  ⟨bounded_cache_session_cap.1 2 (by decide) oracle_ok oracle_ok demo_ops,
   bounded_cache_session_cap.2 (TtsModelHolder.new (some 2)) "a"⟩

/-- Claim C1 (code bug): when re-instantiating the requested session from
the entry's resident weight bytes fails, `model_session_preparation` does
NOT leave the cache as it was: the entry was removed from the vector
before the fallible instantiation and the error return never restores it,
so the requested entry — weight bytes and style vectors included — is
gone from the cache. -/
theorem model_session_preparation_not_fail_closed :
    (demo_cold_holder.model_session_preparation demo_fail_session "m").2 =
        Except.error (Sbv2CoreError.ExternalError "onnx parse failure") ∧
    (demo_cold_holder.model_session_preparation demo_fail_session "m").1.models =
        EitherTtsModelVec.Limit [] ∧
    demo_cold_holder.models ≠ EitherTtsModelVec.Limit [] := by
  refine ⟨rfl, rfl, ?_⟩
  decide

end Sbv2
